import Mathlib

/-!
Verification development for the data-wrangling pipeline in `wrangle.py`.

The pipeline is embedded shallowly: each pandas DataFrame becomes a `List`
of a row structure, numeric columns become `ℚ`, nullable columns become
`Option`.  File reading is factored out: each `load_*`/`build_*` function is
modelled as a function of the already-parsed table(s) it reads, and the
transformation logic (renames, filters, joins, melts, group-bys) is
translated step by step from the source.

Modelling conventions, used throughout:
* pandas `merge(how="inner"/"left"/"right", on=keys)` is translated as a
  `flatMap` over the frame whose keys are kept, pairing each row with all
  key-matching rows of the other frame; a left/right join emits a single
  row with `none` fields when there is no match.  This matches pandas row
  multiplicity and (for left/right joins) pandas row order.
* `groupby(...).sum()` is translated as a map over the deduplicated key
  list, summing the grouped column over the key's rows.  pandas sorts the
  group keys, but every use in the source immediately merges the sums back
  on the key (or sorts again), so only the key/value association matters.
* pandas float arithmetic is modelled with `ℚ`.  The rational division
  `x / 0 = 0` differs from the float `inf`/`NaN`; theorems whose content
  depends on a division therefore carry explicit nonzero hypotheses.
* `NaN` (missing) values are modelled with `Option`; pandas `.sum()` skips
  `NaN`, which is translated as summing the `filterMap` of the column.
-/

/-- `PUNCTUATION = "!@#$%^&*."` from wrangle.py line 15, as a character set. -/
def punctChars : List Char := ['!', '@', '#', '$', '%', '^', '&', '*', '.']

/-- Python `s.strip(PUNCTUATION)`: remove leading and trailing characters
that belong to the punctuation set (wrangle.py line 100, 132). -/
def pstrip (s : String) : String :=
  ⟨((s.data.dropWhile (fun c => punctChars.contains c)).reverse.dropWhile
      (fun c => punctChars.contains c)).reverse⟩

/-- Python `s.upper()` / pandas `.str.upper()`, as a character-wise map. -/
def strUpper (s : String) : String := ⟨s.data.map Char.toUpper⟩

/-- Python's `needle in hay` substring test on character lists. -/
def listContainsSub (needle : List Char) : List Char → Bool
  | [] => needle.isEmpty
  | c :: rest => needle.isPrefixOf (c :: rest) || listContainsSub needle rest

/-- Python's `needle in hay` substring test on strings
(`"generation" in filename`, wrangle.py lines 163/176). -/
def strContainsSub (needle hay : String) : Bool :=
  listContainsSub needle.data hay.data

/-! ### Code table loader (`load_codes`, wrangle.py lines 34-50) -/

/-- One row of the state-codes CSV after the column selection
`letters[["state", "code"]]` (the file is parsed outside the model). -/
structure CodeRow where
  state : String
  code : String
  deriving DecidableEq

/-- `load_codes`: keep the `state`/`code` columns and upper-case the codes
(wrangle.py lines 44-50).  Column-name lowercasing and selection happen at
parse time and are reflected in the `CodeRow` shape. -/
def load_codes (rows : List CodeRow) : List CodeRow :=
  rows.map (fun r => { r with code := strUpper r.code })

/-! ### Population builder (`load_clean_pop` output shape and `build_pop`,
wrangle.py lines 82-113) -/

/-- One row of a cleaned census table (the output shape of
`load_clean_pop`): a state name plus one `(column-name, value)` pair per
year column.  All rows of one file carry the same column names. -/
structure PopWide where
  state : String
  vals : List (String × ℚ)
  deriving DecidableEq

/-- pandas' suffixing of colliding non-key columns in a merge: a column
whose name also occurs on the other side of the join is renamed with the
merge suffix (`_x` for the left frame, `_y` for the right); other columns
keep their names.  The collision test compares against the matched row's
column names, which equal the other frame's column set under the
uniform-columns invariant of `PopWide`. -/
def suffixVals (vals other : List (String × ℚ)) (suf : String) :
    List (String × ℚ) :=
  vals.map (fun v =>
    if v.1 ∈ other.map (fun w => w.1) then (v.1 ++ suf, v.2) else v)

/-- Inner join of two wide population tables on `state`
(`pop_df.merge(df, how="inner", on="state")`, wrangle.py line 98).  The
non-key columns of both tables are concatenated, with pandas' `_x`/`_y`
suffixes on colliding column names. -/
def mergePopWide (a b : List PopWide) : List PopWide :=
  a.flatMap (fun r =>
    (b.filter (fun s => decide (s.state = r.state))).map
      (fun s => ⟨r.state, suffixVals r.vals s.vals "_x" ++
        suffixVals s.vals r.vals "_y"⟩))

/-- One row of the long (melted) population table: `state`, `code`,
`year`, `pop` (wrangle.py lines 107-111). -/
structure PopMeltRow where
  state : String
  code : String
  year : String
  pop : ℚ
  deriving DecidableEq

/-- `build_pop` (wrangle.py lines 82-113) on the three cleaned census
tables: inner-join the three tables pairwise on `state`, strip punctuation
from the state names, inner-join the codes table onto the result, drop
every non-`state` column whose name is longer than 4 characters, and melt
to long form with columns renamed to `year`/`pop`.

pandas melts column-major while this model emits each row's year columns
in row order; only the row multiset is used by the spec's claims.  Note
that a year column present in two of the files is `_x`/`_y`-suffixed by
the merges, which pushes its name over 4 characters, so the drop removes
it — exactly as in pandas. -/
def build_pop (codes : List CodeRow) (f1 f2 f3 : List PopWide) :
    List PopMeltRow :=
  let letters := load_codes codes
  let m := mergePopWide (mergePopWide f1 f2) f3
  let m := m.map (fun r => { r with state := pstrip r.state })
  letters.flatMap (fun l =>
    (m.filter (fun r => decide (r.state = l.state))).flatMap (fun r =>
      (r.vals.filter (fun v => decide (v.1.length ≤ 4))).map (fun v =>
        ⟨l.state, l.code, v.1, v.2⟩)))

/-! ### Energy/emissions cleaner (`load_clean_eng`, wrangle.py
lines 148-196) -/

/-- One raw row of the generation CSV after column-name normalization
(lowercase, spaces/newlines to `_`): `year`, `state`,
`type_of_producer`, `energy_source`, `generation_(megawatthours)`. -/
structure RawGenRow where
  year : Int
  state : String
  type_of_producer : String
  energy_source : String
  generation : ℚ
  deriving DecidableEq

/-- One raw row of the emission CSV after column-name normalization:
`year`, `state`, `producer_type`, `energy_source`, and the three
`*_(metric_tons)` columns. -/
structure RawEmisRow where
  year : Int
  state : String
  producer_type : String
  energy_source : String
  co2 : ℚ
  so2 : ℚ
  nox : ℚ
  deriving DecidableEq

/-- Cleaned generation row: renamed columns `src`/`gen_mwh` plus the
derived `renew` flag (wrangle.py lines 164-169). -/
structure GenRow where
  state : String
  year : Int
  src : String
  gen_mwh : ℚ
  renew : String
  deriving DecidableEq

/-- Cleaned emission row: renamed columns `src`/`co2_tons`/`so2_tons`/
`nox_tons` (wrangle.py lines 177-180). -/
structure EmisRow where
  state : String
  year : Int
  src : String
  co2_tons : ℚ
  so2_tons : ℚ
  nox_tons : ℚ
  deriving DecidableEq

/-- The source-name canonicalization applied to `src`
(wrangle.py lines 188-193).  The source uses substring replacement; the
replaced phrases only occur as whole cell values in these files, so the
model replaces whole values. -/
def canon_src (s : String) : String :=
  let s1 := if s = "Hydroelectric Conventional" then "Hydroelectric" else s
  let s2 := if s1 = "Wood and Wood Derived Fuels" then "Wood Derived Fuels" else s1
  if s2 = "Solar Thermal and Photovoltaic" then "Solar" else s2

/-- The generation branch of `load_clean_eng` (wrangle.py lines 163-174
plus the shared lines 185-194): keep rows whose `type_of_producer` is
`"Total Electric Power Industry"` and whose `src` is not `"Total"`
(the boolean mask is computed before the `Total` drop but applied after
it, which pandas aligns on the surviving index, i.e. both filters apply),
derive `renew`, canonicalize `src`, upper-case `state`. -/
def clean_gen (rows : List RawGenRow) : List GenRow :=
  (rows.filter (fun r =>
      decide (r.energy_source ≠ "Total" ∧
        r.type_of_producer = "Total Electric Power Industry"))).map
    (fun r =>
      ⟨strUpper r.state, r.year, canon_src r.energy_source, r.generation,
        if r.energy_source = "Coal" ∨ r.energy_source = "Natural Gas" ∨
            r.energy_source = "Petroleum"
        then "Nonrenewable" else "Renewable"⟩)

/-- The emission branch of `load_clean_eng` (wrangle.py lines 176-183 plus
the shared lines 185-194): keep rows whose `producer_type` is
`"Total Electric Power Industry"`, canonicalize `src`, upper-case
`state`. -/
def clean_emis (rows : List RawEmisRow) : List EmisRow :=
  (rows.filter (fun r =>
      decide (r.producer_type = "Total Electric Power Industry"))).map
    (fun r =>
      ⟨strUpper r.state, r.year, canon_src r.energy_source, r.co2, r.so2,
        r.nox⟩)

/-- A raw energy-statistics file is one of the two shapes. -/
inductive RawEngFile where
  | genFile : List RawGenRow → RawEngFile
  | emisFile : List RawEmisRow → RawEngFile
  deriving DecidableEq

/-- A cleaned energy table, in the shape produced by the branch taken. -/
inductive CleanedEng where
  | genT : List GenRow → CleanedEng
  | emisT : List EmisRow → CleanedEng
  deriving DecidableEq

/-- What the generation branch of `load_clean_eng` does to a raw file:
a generation-shaped file is cleaned, while an emission-shaped file makes
the branch fail (the generation renames do not apply and `df["src"]`
raises). -/
def gen_branch : RawEngFile → Option CleanedEng
  | RawEngFile.genFile rows => some (CleanedEng.genT (clean_gen rows))
  | RawEngFile.emisFile _ => none

/-- What the emission branch does to a raw file (mirror case). -/
def emis_branch : RawEngFile → Option CleanedEng
  | RawEngFile.emisFile rows => some (CleanedEng.emisT (clean_emis rows))
  | RawEngFile.genFile _ => none

/-- `load_clean_eng` (wrangle.py lines 148-196): the branch is chosen by
substring-matching the filename (`if "generation" in filename ... elif
"emission" in filename`).  When neither substring occurs, no branch runs
and the later use of the undefined `totals_mask` raises `NameError`;
failure is modelled as `none`. -/
def load_clean_eng (filename : String) (file : RawEngFile) :
    Option CleanedEng :=
  if strContainsSub "generation" filename then gen_branch file
  else if strContainsSub "emission" filename then emis_branch file
  else none

/-! ### Energy builder (`build_eng`, wrangle.py lines 199-225) -/

/-- One row of the merged energy table.  `build_eng` renames `state` to
`code` as its last step; the field carries the final name. -/
structure EngRow where
  code : String
  year : Int
  src : String
  gen_mwh : ℚ
  renew : String
  co2_tons : ℚ
  so2_tons : ℚ
  nox_tons : ℚ
  deriving DecidableEq

/-- The left join of the cleaned generation table with the cleaned
emission table on `(state, year, src)` followed by `fillna(0)`
(wrangle.py lines 214-216): an unmatched generation row gets zero
emissions. -/
def eng_merge (gen : List GenRow) (emis : List EmisRow) : List EngRow :=
  gen.flatMap (fun g =>
    match emis.filter (fun e =>
        decide (e.state = g.state ∧ e.year = g.year ∧ e.src = g.src)) with
    | [] => [⟨g.state, g.year, g.src, g.gen_mwh, g.renew, 0, 0, 0⟩]
    | ms => ms.map (fun e =>
        ⟨g.state, g.year, g.src, g.gen_mwh, g.renew, e.co2_tons, e.so2_tons,
          e.nox_tons⟩))

/-- `build_eng` (wrangle.py lines 199-225): merge the two cleaned tables,
then drop the rows whose state is the literal `"US-Total"`, `"US-TOTAL"`,
`"  "` (exactly two spaces) or `"DC"`, and rename `state` to `code`. -/
def build_eng (gen : List GenRow) (emis : List EmisRow) : List EngRow :=
  (eng_merge gen emis).filter (fun r =>
    decide (r.code ≠ "US-Total" ∧ r.code ≠ "US-TOTAL" ∧ r.code ≠ "  " ∧
      r.code ≠ "DC"))

/-! ### Full-dataset assembler (`build_full`, wrangle.py lines 228-277).

`build_full` consumes `build_eng()`, `build_pop()` and `load_clean_pol()`;
it is modelled as a function of those three tables.  The `year` columns
are joined as strings and immediately cast to `int` in the source
(line 244); the model takes the cast as already done and joins on integer
years. -/

/-- One row of the population table as consumed by `build_full`
(the melt output with `year` cast to `Int`). -/
structure PopRow where
  state : String
  code : String
  year : Int
  pop : ℚ
  deriving DecidableEq

/-- One row of the legislature table produced by `load_clean_pol`.  After
`fillna("Split")` (wrangle.py line 137) the `pol` column has no missing
values, so the field is total. -/
structure PolRow where
  state : String
  code : String
  year : Int
  pol : String
  deriving DecidableEq

/-- One row of `pop.merge(pol, how="left", on=["state", "code", "year"])`
(wrangle.py line 243): `pol` is missing on unmatched rows. -/
structure PPRow where
  state : String
  code : String
  year : Int
  pop : ℚ
  pol : Option String
  deriving DecidableEq

/-- The left join `pop.merge(pol, how="left", on=["state","code","year"])`
(wrangle.py line 243). -/
def leftJoinPopPol (popT : List PopRow) (polT : List PolRow) : List PPRow :=
  popT.flatMap (fun p =>
    match polT.filter (fun q =>
        decide (q.state = p.state ∧ q.code = p.code ∧ q.year = p.year)) with
    | [] => [⟨p.state, p.code, p.year, p.pop, none⟩]
    | ms => ms.map (fun q => ⟨p.state, p.code, p.year, p.pop, some q.pol⟩))

/-- The per-state forward fill of `pol` (wrangle.py lines 246-248):
the rows are traversed in order while `last` carries, per state code, the
most recent non-missing `pol` value; a missing `pol` is replaced by
`last` of the row's code.  This is the per-index semantics of running
`fillna(method="ffill")` on each state's subsequence. -/
def ffill_pol (last : String → Option String) : List PPRow → List PPRow
  | [] => []
  | r :: rs =>
    let filled : Option String := r.pol.or (last r.code)
    { r with pol := filled } ::
      ffill_pol (fun c => if c = r.code then filled else last c) rs

/-- One row of `data.merge(eng_df, how="right", on=["year", "code"])`
(wrangle.py line 250): the population-side fields become missing on
energy rows without a population/legislature match. -/
structure MergeRow where
  year : Int
  code : String
  state : Option String
  pop : Option ℚ
  pol : Option String
  src : String
  renew : String
  gen_mwh : ℚ
  co2_tons : ℚ
  so2_tons : ℚ
  nox_tons : ℚ
  deriving DecidableEq

/-- The right join on `(year, code)` (wrangle.py line 250): every energy
row is kept, matched against all population/legislature rows with the
same key, with missing population-side fields when there is none. -/
def rightJoinEng (pp : List PPRow) (eng : List EngRow) : List MergeRow :=
  eng.flatMap (fun e =>
    match pp.filter (fun p => decide (p.year = e.year ∧ p.code = e.code)) with
    | [] => [⟨e.year, e.code, none, none, none, e.src, e.renew, e.gen_mwh,
        e.co2_tons, e.so2_tons, e.nox_tons⟩]
    | ms => ms.map (fun p =>
        ⟨e.year, e.code, some p.state, some p.pop, p.pol, e.src, e.renew,
          e.gen_mwh, e.co2_tons, e.so2_tons, e.nox_tons⟩))

/-- A merge row extended with the per-capita columns
(wrangle.py lines 253-254). -/
structure PcRow extends MergeRow where
  co2_pp : Option ℚ
  mwh_pp : Option ℚ
  deriving DecidableEq

/-- `data["co2_pp"] = data["co2_tons"] / data["pop"]` and
`data["mwh_pp"] = data["gen_mwh"] / data["pop"]` (wrangle.py
lines 253-254): missing `pop` yields missing per-capita values. -/
def addPc (r : MergeRow) : PcRow :=
  { toMergeRow := r,
    co2_pp := r.pop.map (fun p => r.co2_tons / p),
    mwh_pp := r.pop.map (fun p => r.gen_mwh / p) }

/-- One row of the `(year, code)` group-by sums table `sum_mwh`
(wrangle.py lines 257-259). -/
structure SumEntry where
  year : Int
  code : String
  sum_gen_mwh : ℚ
  sum_mwh_pp : ℚ
  deriving DecidableEq

/-- `data.groupby(["year", "code"])[["gen_mwh", "mwh_pp"]].sum()` with the
columns renamed to `sum_gen_mwh`/`sum_mwh_pp` (wrangle.py lines 257-259).
pandas `.sum()` skips missing values, hence the `filterMap` for
`mwh_pp`. -/
def sum_mwh_table (d : List PcRow) : List SumEntry :=
  ((d.map (fun r => (r.year, r.code))).dedup).map (fun k =>
    ⟨k.1, k.2,
      ((d.filter (fun r => decide (r.year = k.1 ∧ r.code = k.2))).map
        (fun r => r.gen_mwh)).sum,
      ((d.filter (fun r => decide (r.year = k.1 ∧ r.code = k.2))).filterMap
        (fun r => r.mwh_pp)).sum⟩)

/-- A per-capita row extended with the group sums and the share columns
(wrangle.py lines 261-263). -/
structure SumRow extends PcRow where
  sum_gen_mwh : ℚ
  sum_mwh_pp : ℚ
  mwh_pp_pct : Option ℚ
  gen_mwh_pct : ℚ
  deriving DecidableEq

/-- `data.merge(sum_mwh, how="left", on=["year", "code"])` followed by the
two share columns (wrangle.py lines 261-263).  The sums table has one row
per key, so the left join attaches to each data row the sums of its own
group; the keys of `sums` cover every data key by construction, so the
`none` branch of `find?` is unreachable. -/
def add_sums_row (sums : List SumEntry) (r : PcRow) : SumRow :=
  match sums.find? (fun s => decide (s.year = r.year ∧ s.code = r.code)) with
  | some s =>
    { toPcRow := r, sum_gen_mwh := s.sum_gen_mwh,
      sum_mwh_pp := s.sum_mwh_pp,
      mwh_pp_pct := r.mwh_pp.map (fun v => v / s.sum_mwh_pp),
      gen_mwh_pct := r.gen_mwh / s.sum_gen_mwh }
  | none =>
    { toPcRow := r, sum_gen_mwh := 0, sum_mwh_pp := 0,
      mwh_pp_pct := none, gen_mwh_pct := 0 }

def add_sums (d : List PcRow) (sums : List SumEntry) : List SumRow :=
  d.map (add_sums_row sums)

/-- One row of the per-source sums table `mwh_co2`
(wrangle.py lines 267-269). -/
structure SrcEntry where
  src : String
  gen_mwh : ℚ
  co2_tons : ℚ
  co2_mwh : ℚ
  deriving DecidableEq

/-- `data.groupby(["src"])[["gen_mwh", "co2_tons"]].sum()` plus the
`co2_mwh` quotient column (wrangle.py lines 267-269). -/
def src_sums (d : List SumRow) : List SrcEntry :=
  ((d.map (fun r => r.src)).dedup).map (fun s =>
    let g := d.filter (fun r => decide (r.src = s))
    let gen := (g.map (fun r => r.gen_mwh)).sum
    let co2 := (g.map (fun r => r.co2_tons)).sum
    ⟨s, gen, co2, co2 / gen⟩)

/-- The descending-`co2_mwh` order used by
`sort_values("co2_mwh", ascending=False)` (wrangle.py line 270). -/
def srcGE (a b : SrcEntry) : Prop := b.co2_mwh ≤ a.co2_mwh

instance : DecidableRel srcGE := fun a b =>
  inferInstanceAs (Decidable (b.co2_mwh ≤ a.co2_mwh))

instance : IsTotal SrcEntry srcGE := ⟨fun a b => le_total b.co2_mwh a.co2_mwh⟩

instance : IsTrans SrcEntry srcGE := ⟨fun _ _ _ h1 h2 => le_trans h2 h1⟩

/-- One row of the rank table `mwh_co2[["src", "rank"]]`
(wrangle.py lines 272-274). -/
structure RankEntry where
  src : String
  rank : Nat
  deriving DecidableEq

/-- `mwh_co2["rank"] = mwh_co2.index + 1` after the reset of the index
(wrangle.py lines 271-272): position in the sorted table, 1-based. -/
def rankFrom (i : Nat) : List SrcEntry → List RankEntry
  | [] => []
  | e :: es => ⟨e.src, i⟩ :: rankFrom (i + 1) es

/-- The `(src, rank)` table: sort the per-source sums descending by
`co2_mwh` and enumerate from 1 (wrangle.py lines 267-272). -/
def rank_table (d : List SumRow) : List RankEntry :=
  rankFrom 1 (List.insertionSort srcGE (src_sums d))

/-- One row of the final table: everything plus `rank`
(wrangle.py line 274); `rank` is missing when the left join on `src`
finds no match. -/
structure FullRow extends SumRow where
  rank : Option Nat
  deriving DecidableEq

/-- `data.merge(mwh_co2[["src", "rank"]], how="left", on="src")`
(wrangle.py line 274).  The rank table has one row per distinct source,
so the left join attaches a single rank to each row. -/
def addRank (ranked : List RankEntry) (r : SumRow) : FullRow :=
  { toSumRow := r,
    rank := (ranked.find? (fun e => decide (e.src = r.src))).map
      (fun e => e.rank) }

/-- The population/legislature side of `build_full` before the right
join: the left join of line 243 followed by the per-state forward fill of
lines 246-248. -/
def pp_table (popT : List PopRow) (polT : List PolRow) : List PPRow :=
  ffill_pol (fun _ => none) (leftJoinPopPol popT polT)

/-- The table after the right join of wrangle.py line 250. -/
def merged_table (eng : List EngRow) (popT : List PopRow)
    (polT : List PolRow) : List MergeRow :=
  rightJoinEng (pp_table popT polT) eng

/-- The table after the per-capita columns of wrangle.py lines 253-254. -/
def pc_table (eng : List EngRow) (popT : List PopRow) (polT : List PolRow) :
    List PcRow :=
  (merged_table eng popT polT).map addPc

/-- The table after the group sums and share columns of wrangle.py
lines 257-263. -/
def shares_table (eng : List EngRow) (popT : List PopRow)
    (polT : List PolRow) : List SumRow :=
  add_sums (pc_table eng popT polT) (sum_mwh_table (pc_table eng popT polT))

/-- `build_full` (wrangle.py lines 228-277) as a function of the three
tables it merges.  The final `astype(int)` on `year` (line 275) is the
identity here because years are already integers. -/
def build_full (eng : List EngRow) (popT : List PopRow)
    (polT : List PolRow) : List FullRow :=
  (shares_table eng popT polT).map
    (addRank (rank_table (shares_table eng popT polT)))

/-- Dataset-wide `gen_mwh` sum of one source over the final table
(the denominator of the source's `co2_mwh` quotient,
wrangle.py lines 267-269). -/
def src_gen_total (t : List FullRow) (s : String) : ℚ :=
  ((t.filter (fun r => decide (r.src = s))).map (fun r => r.gen_mwh)).sum

/-- Dataset-wide `co2_tons` sum of one source over the final table. -/
def src_co2_total (t : List FullRow) (s : String) : ℚ :=
  ((t.filter (fun r => decide (r.src = s))).map (fun r => r.co2_tons)).sum

/-- The dataset-wide emissions-per-MWh quotient of one source over the
final table (`co2_mwh` of wrangle.py line 269). -/
def src_co2_per_mwh (t : List FullRow) (s : String) : ℚ :=
  src_co2_total t s / src_gen_total t s

/-! ### Forward-fill lemmas -/

theorem ffill_pol_length (last : String → Option String) (l : List PPRow) :
    (ffill_pol last l).length = l.length := by
  induction l generalizing last with
  | nil => rfl
  | cons r rs ih => simp [ffill_pol, ih]

theorem getLast?_cons_or {α : Type} (a : α) (l : List α) :
    (a :: l).getLast? = l.getLast?.or (some a) := by
  cases h : l.getLast? with
  | none => simp [List.getLast?_cons, h]
  | some b => simp [List.getLast?_cons, h]


/-- The value the forward fill would substitute at position `i` for a row
with code `c`: the last non-missing `pol` among the first `i` rows whose
code is `c`. -/
def prev_pol (l : List PPRow) (i : Nat) (c : String) : Option String :=
  (((l.take i).filter (fun p => decide (p.code = c))).filterMap
    (fun p => p.pol)).getLast?

theorem prev_pol_zero (l : List PPRow) (c : String) : prev_pol l 0 c = none :=
  rfl

theorem prev_pol_succ_ne (r : PPRow) (rs : List PPRow) (n : Nat) (c : String)
    (h : ¬ r.code = c) : prev_pol (r :: rs) (n + 1) c = prev_pol rs n c := by
  simp [prev_pol, List.filter_cons, h]

theorem prev_pol_succ_none (r : PPRow) (rs : List PPRow) (n : Nat)
    (c : String) (hc : r.code = c) (hv : r.pol = none) :
    prev_pol (r :: rs) (n + 1) c = prev_pol rs n c := by
  simp [prev_pol, List.filter_cons, hc, hv]

theorem prev_pol_succ_some (r : PPRow) (rs : List PPRow) (n : Nat)
    (c : String) (v : String) (hc : r.code = c) (hv : r.pol = some v) :
    prev_pol (r :: rs) (n + 1) c = (prev_pol rs n c).or (some v) := by
  simp [prev_pol, List.filter_cons, hc, hv, getLast?_cons_or]

theorem ffill_pol_cons (last : String → Option String) (r : PPRow)
    (rs : List PPRow) :
    ffill_pol last (r :: rs) = { r with pol := r.pol.or (last r.code) } ::
      ffill_pol (fun c => if c = r.code then r.pol.or (last r.code)
        else last c) rs :=
  rfl

/-- Positional characterization of the per-state forward fill, for an
arbitrary carried map `last`: row `i` keeps all its fields except that a
missing `pol` is replaced by the most recent non-missing `pol` of an
earlier row with the same code, falling back to `last` of the code. -/
theorem ffill_pol_getElem? (last : String → Option String) (l : List PPRow)
    (i : Nat) :
    (ffill_pol last l)[i]? = (l[i]?).map (fun row =>
      { row with
          pol := row.pol.or ((prev_pol l i row.code).or (last row.code)) }) := by
  induction l generalizing last i with
  | nil => simp [ffill_pol]
  | cons r rs ih =>
    cases i with
    | zero =>
      rw [ffill_pol_cons]
      simp [prev_pol_zero]
    | succ n =>
      rw [ffill_pol_cons]
      simp only [List.getElem?_cons_succ]
      rw [ih]
      cases hn : rs[n]? with
      | none => rfl
      | some row =>
        simp only [Option.map_some']
        congr 1
        by_cases hc : r.code = row.code
        · cases hv : r.pol with
          | none =>
            rw [prev_pol_succ_none r rs n row.code hc hv, if_pos hc.symm, hc]
            simp
          | some v =>
            rw [prev_pol_succ_some r rs n row.code v hc hv, if_pos hc.symm]
            simp [Option.or_assoc]
        · rw [prev_pol_succ_ne r rs n row.code hc,
            if_neg (fun h => hc h.symm)]

theorem ffill_pol_twice (last : String → Option String) (l : List PPRow) :
    ffill_pol last (ffill_pol last l) = ffill_pol last l := by
  induction l generalizing last with
  | nil => rfl
  | cons r rs ih =>
    rw [ffill_pol_cons last r rs, ffill_pol_cons]
    have hf : (r.pol.or (last r.code)).or (last r.code) =
        r.pol.or (last r.code) := by
      rw [Option.or_assoc, Option.or_self]
    simp only [hf]
    rw [ih]

/-- Claim C3: the per-state forward-fill used in `build_full` leaves every
field of row `i` unchanged except `pol`, where a missing value is replaced
by the most recent non-missing `pol` among the earlier rows with the same
state code (`prev_pol`), and stays missing when there is none (`Option.or`
of two missing values is missing). -/
theorem forward_fill_spec (l : List PPRow) (i : Nat) (h : i < l.length) :
    (ffill_pol (fun _ => none) l)[i]? =
      some { l.get ⟨i, h⟩ with
        pol := (l.get ⟨i, h⟩).pol.or (prev_pol l i (l.get ⟨i, h⟩).code) } := by
  rw [ffill_pol_getElem? (fun _ => none) l i, List.getElem?_eq_getElem h]
  simp [Option.or_none]

/-- The forward-fill scenario table: (AL, 1992, Republican),
(AL, 1994, missing), (AL, 1996, Democrat); `pop` values are irrelevant. -/
def alScenario : List PPRow :=
  [⟨"Alabama", "AL", 1992, 1, some "Republican"⟩,
   ⟨"Alabama", "AL", 1994, 1, none⟩,
   ⟨"Alabama", "AL", 1996, 1, some "Democrat"⟩]

/-- Witness for C3: in the scenario table the missing 1994 value resolves
to "Republican". -/
theorem forward_fill_spec_witness :
    (ffill_pol (fun _ => none) alScenario)[1]? =
      some ⟨"Alabama", "AL", 1994, 1, some "Republican"⟩ := by
  rw [forward_fill_spec alScenario 1 (by decide)]
  rfl

/-- Claim C9: the per-state forward fill (as run by `build_full`, with no
previously seen values) is idempotent: applying it twice to any table
yields the same table as applying it once. -/
theorem forward_fill_idempotent (l : List PPRow) :
    ffill_pol (fun _ => none) (ffill_pol (fun _ => none) l) =
      ffill_pol (fun _ => none) l :=
  ffill_pol_twice (fun _ => none) l

/-! ### Membership lemmas for the assembler stages -/

theorem add_sums_row_toPcRow (sums : List SumEntry) (r : PcRow) :
    (add_sums_row sums r).toPcRow = r := by
  unfold add_sums_row
  cases sums.find? (fun s => decide (s.year = r.year ∧ s.code = r.code)) with
  | none => rfl
  | some s => rfl

theorem addRank_toSumRow (ranked : List RankEntry) (r : SumRow) :
    (addRank ranked r).toSumRow = r :=
  rfl

/-- Every final row restricts to a per-capita row built from some
right-join row. -/
theorem build_full_toPcRow (eng : List EngRow) (popT : List PopRow)
    (polT : List PolRow) (r : FullRow)
    (hr : r ∈ build_full eng popT polT) :
    ∃ r2 ∈ merged_table eng popT polT, r.toPcRow = addPc r2 := by
  obtain ⟨r4, hr4, hmap⟩ := List.mem_map.mp hr
  obtain ⟨r3, hr3, hmap3⟩ := List.mem_map.mp hr4
  obtain ⟨r2, hr2, hmap2⟩ := List.mem_map.mp hr3
  refine ⟨r2, hr2, ?_⟩
  rw [← hmap, addRank_toSumRow, ← hmap3, add_sums_row_toPcRow, ← hmap2]

/-- Conversely, every right-join row survives into the final table
(the two later left joins are row-preserving maps). -/
theorem build_full_of_merged (eng : List EngRow) (popT : List PopRow)
    (polT : List PolRow) (r2 : MergeRow)
    (h2 : r2 ∈ merged_table eng popT polT) :
    ∃ r ∈ build_full eng popT polT, r.toPcRow = addPc r2 := by
  refine ⟨addRank (rank_table (shares_table eng popT polT))
    (add_sums_row (sum_mwh_table (pc_table eng popT polT)) (addPc r2)),
    ?_, ?_⟩
  · apply List.mem_map_of_mem
    apply List.mem_map_of_mem
    exact List.mem_map_of_mem addPc h2
  · rw [addRank_toSumRow, add_sums_row_toPcRow]

/-- Every row of the right join carries the payload of some energy row. -/
theorem rightJoinEng_mem (pp : List PPRow) (eng : List EngRow)
    (m : MergeRow) (hm : m ∈ rightJoinEng pp eng) :
    ∃ e ∈ eng, m.year = e.year ∧ m.code = e.code ∧ m.src = e.src ∧
      m.renew = e.renew ∧ m.gen_mwh = e.gen_mwh ∧ m.co2_tons = e.co2_tons ∧
      m.so2_tons = e.so2_tons ∧ m.nox_tons = e.nox_tons := by
  obtain ⟨e, he, hmem⟩ := List.mem_flatMap.mp hm
  refine ⟨e, he, ?_⟩
  cases h : pp.filter (fun p => decide (p.year = e.year ∧ p.code = e.code)) with
  | nil =>
    rw [h] at hmem
    rw [List.mem_singleton.mp hmem]
    exact ⟨rfl, rfl, rfl, rfl, rfl, rfl, rfl, rfl⟩
  | cons p ps =>
    rw [h] at hmem
    obtain ⟨q, _, hq⟩ := List.mem_map.mp hmem
    rw [← hq]
    exact ⟨rfl, rfl, rfl, rfl, rfl, rfl, rfl, rfl⟩

/-- Every energy row produces a right-join row carrying its payload; when
its key has no match on the population/legislature side the row's
population-side fields are all missing. -/
theorem rightJoinEng_cover (pp : List PPRow) (eng : List EngRow)
    (e : EngRow) (he : e ∈ eng) :
    ∃ m ∈ rightJoinEng pp eng, m.year = e.year ∧ m.code = e.code ∧
      m.src = e.src ∧ m.renew = e.renew ∧ m.gen_mwh = e.gen_mwh ∧
      m.co2_tons = e.co2_tons ∧ m.so2_tons = e.so2_tons ∧
      m.nox_tons = e.nox_tons ∧
      ((∀ p ∈ pp, ¬(p.year = e.year ∧ p.code = e.code)) →
        m.state = none ∧ m.pop = none ∧ m.pol = none) := by
  cases h : pp.filter (fun p => decide (p.year = e.year ∧ p.code = e.code)) with
  | nil =>
    refine ⟨⟨e.year, e.code, none, none, none, e.src, e.renew, e.gen_mwh,
      e.co2_tons, e.so2_tons, e.nox_tons⟩, ?_, ?_⟩
    · apply List.mem_flatMap.mpr
      refine ⟨e, he, ?_⟩
      rw [h]
      exact List.mem_singleton.mpr rfl
    · exact ⟨rfl, rfl, rfl, rfl, rfl, rfl, rfl, rfl, fun _ => ⟨rfl, rfl, rfl⟩⟩
  | cons p ps =>
    refine ⟨⟨e.year, e.code, some p.state, some p.pop, p.pol, e.src, e.renew,
      e.gen_mwh, e.co2_tons, e.so2_tons, e.nox_tons⟩, ?_, ?_⟩
    · apply List.mem_flatMap.mpr
      refine ⟨e, he, ?_⟩
      rw [h]
      exact List.mem_map_of_mem _ (List.mem_cons_self p ps)
    · refine ⟨rfl, rfl, rfl, rfl, rfl, rfl, rfl, rfl, fun hno => ?_⟩
      exfalso
      have hp : p ∈ pp.filter
          (fun p => decide (p.year = e.year ∧ p.code = e.code)) := by
        rw [h]
        exact List.mem_cons_self p ps
      have := List.mem_filter.mp hp
      exact hno p this.1 (of_decide_eq_true this.2)

theorem leftJoinPopPol_mem (popT : List PopRow) (polT : List PolRow)
    (q : PPRow) (hq : q ∈ leftJoinPopPol popT polT) :
    ∃ p ∈ popT, q.year = p.year ∧ q.code = p.code := by
  obtain ⟨p, hp, hmem⟩ := List.mem_flatMap.mp hq
  refine ⟨p, hp, ?_⟩
  cases h : polT.filter (fun w =>
      decide (w.state = p.state ∧ w.code = p.code ∧ w.year = p.year)) with
  | nil =>
    rw [h] at hmem
    rw [List.mem_singleton.mp hmem]
    exact ⟨rfl, rfl⟩
  | cons a as =>
    rw [h] at hmem
    obtain ⟨b, _, hb⟩ := List.mem_map.mp hmem
    rw [← hb]
    exact ⟨rfl, rfl⟩

theorem leftJoinPopPol_cover (popT : List PopRow) (polT : List PolRow)
    (p : PopRow) (hp : p ∈ popT) :
    ∃ q ∈ leftJoinPopPol popT polT, q.year = p.year ∧ q.code = p.code := by
  cases h : polT.filter (fun w =>
      decide (w.state = p.state ∧ w.code = p.code ∧ w.year = p.year)) with
  | nil =>
    refine ⟨⟨p.state, p.code, p.year, p.pop, none⟩, ?_, rfl, rfl⟩
    apply List.mem_flatMap.mpr
    refine ⟨p, hp, ?_⟩
    rw [h]
    exact List.mem_singleton.mpr rfl
  | cons a as =>
    refine ⟨⟨p.state, p.code, p.year, p.pop, some a.pol⟩, ?_, rfl, rfl⟩
    apply List.mem_flatMap.mpr
    refine ⟨p, hp, ?_⟩
    rw [h]
    exact List.mem_map_of_mem _ (List.mem_cons_self a as)

theorem ffill_pol_mem_key (last : String → Option String) (l : List PPRow)
    (q : PPRow) (hq : q ∈ ffill_pol last l) :
    ∃ p ∈ l, q.year = p.year ∧ q.code = p.code := by
  induction l generalizing last with
  | nil => exact absurd hq (List.not_mem_nil q)
  | cons r rs ih =>
    rw [ffill_pol_cons] at hq
    rcases List.mem_cons.mp hq with h | h
    · exact ⟨r, List.mem_cons_self r rs, by rw [h]; exact ⟨rfl, rfl⟩⟩
    · obtain ⟨p, hp, hk⟩ := ih _ h
      exact ⟨p, List.mem_cons_of_mem r hp, hk⟩

theorem ffill_pol_cover_key (last : String → Option String) (l : List PPRow)
    (p : PPRow) (hp : p ∈ l) :
    ∃ q ∈ ffill_pol last l, q.year = p.year ∧ q.code = p.code := by
  induction l generalizing last with
  | nil => exact absurd hp (List.not_mem_nil p)
  | cons r rs ih =>
    rw [ffill_pol_cons]
    rcases List.mem_cons.mp hp with h | h
    · refine ⟨{ r with pol := r.pol.or (last r.code) }, List.mem_cons_self _ _,
        ?_⟩
      rw [h]
      exact ⟨rfl, rfl⟩
    · obtain ⟨q, hq, hk⟩ := ih _ h
      exact ⟨q, List.mem_cons_of_mem _ hq, hk⟩

/-- The population/legislature side of the right join has a given
`(year, code)` key exactly when the population table has it; the left join
of line 243 and the forward fill preserve keys. -/
theorem pp_table_key_iff (popT : List PopRow) (polT : List PolRow)
    (y : Int) (c : String) :
    (∃ p ∈ pp_table popT polT, p.year = y ∧ p.code = c) ↔
      (∃ p ∈ popT, p.year = y ∧ p.code = c) := by
  constructor
  · rintro ⟨q, hq, hy, hc⟩
    obtain ⟨q0, hq0, hk⟩ := ffill_pol_mem_key _ _ q hq
    obtain ⟨p, hp, hk2⟩ := leftJoinPopPol_mem popT polT q0 hq0
    exact ⟨p, hp, by rw [← hk2.1, ← hk.1, hy], by rw [← hk2.2, ← hk.2, hc]⟩
  · rintro ⟨p, hp, hy, hc⟩
    obtain ⟨q0, hq0, hk⟩ := leftJoinPopPol_cover popT polT p hp
    obtain ⟨q, hq, hk2⟩ := ffill_pol_cover_key (fun _ => none) _ q0 hq0
    exact ⟨q, hq, by rw [hk2.1, hk.1, hy], by rw [hk2.2, hk.2, hc]⟩

/-! ### Claims about the right join, the per-capita columns, and the codes -/

/-- Claim C2: the merge with the energy table (wrangle.py line 250) is a
right join on `(year, code)`: (i) every energy row appears in the final
table with its payload, and with missing `pop`/`pol` when its key has no
match on the population/legislature side; (ii) every final row's
`(year, code)` key comes from an energy row, so population/legislature
rows with keys absent from the energy table are dropped. -/
theorem right_join_spec (eng : List EngRow) (popT : List PopRow)
    (polT : List PolRow) :
    (∀ e ∈ eng, ∃ r ∈ build_full eng popT polT,
      r.year = e.year ∧ r.code = e.code ∧ r.src = e.src ∧
      r.gen_mwh = e.gen_mwh ∧ r.co2_tons = e.co2_tons ∧
      ((∀ p ∈ pp_table popT polT, ¬(p.year = e.year ∧ p.code = e.code)) →
        r.pop = none ∧ r.pol = none)) ∧
    (∀ r ∈ build_full eng popT polT, ∃ e ∈ eng,
      r.year = e.year ∧ r.code = e.code) := by
  constructor
  · intro e he
    obtain ⟨m, hm, h1, h2, h3, h4, h5, h6, h7, h8, h9⟩ :=
      rightJoinEng_cover (pp_table popT polT) eng e he
    obtain ⟨r, hr, hpc⟩ := build_full_of_merged eng popT polT m hm
    have hmr : r.toMergeRow = m := by
      rw [show r.toMergeRow = r.toPcRow.toMergeRow from rfl, hpc]
      rfl
    refine ⟨r, hr, ?_, ?_, ?_, ?_, ?_, ?_⟩
    · rw [show r.year = r.toMergeRow.year from rfl, hmr]; exact h1
    · rw [show r.code = r.toMergeRow.code from rfl, hmr]; exact h2
    · rw [show r.src = r.toMergeRow.src from rfl, hmr]; exact h3
    · rw [show r.gen_mwh = r.toMergeRow.gen_mwh from rfl, hmr]; exact h5
    · rw [show r.co2_tons = r.toMergeRow.co2_tons from rfl, hmr]; exact h6
    · intro hno
      obtain ⟨hs, hpop, hpol⟩ := h9 hno
      constructor
      · rw [show r.pop = r.toMergeRow.pop from rfl, hmr]; exact hpop
      · rw [show r.pol = r.toMergeRow.pol from rfl, hmr]; exact hpol
  · intro r hr
    obtain ⟨m, hm, hpc⟩ := build_full_toPcRow eng popT polT r hr
    obtain ⟨e, he, h1, h2, _⟩ := rightJoinEng_mem _ _ m hm
    have hmr : r.toMergeRow = m := by
      rw [show r.toMergeRow = r.toPcRow.toMergeRow from rfl, hpc]
      rfl
    refine ⟨e, he, ?_, ?_⟩
    · rw [show r.year = r.toMergeRow.year from rfl, hmr]; exact h1
    · rw [show r.code = r.toMergeRow.code from rfl, hmr]; exact h2

/-- A one-row energy table used by concrete witnesses. -/
def engW : List EngRow := [⟨"AL", 2000, "Coal", 5, "Nonrenewable", 10, 1, 2⟩]

/-- A matching one-row population table used by concrete witnesses. -/
def popW : List PopRow := [⟨"Alabama", "AL", 2000, 100⟩]

/-- A matching one-row legislature table used by concrete witnesses. -/
def polW : List PolRow := [⟨"Alabama", "AL", 2000, "Republican"⟩]

/-- Witness for C2: with an empty population side, the energy row for
(2000, AL) appears in the final table with missing `pop` and `pol`. -/
theorem right_join_spec_witness :
    ∃ r ∈ build_full engW [] [], r.year = 2000 ∧ r.code = "AL" ∧
      r.pop = none ∧ r.pol = none := by
  obtain ⟨r, hr, h1, h2, _, _, _, hmiss⟩ :=
    (right_join_spec engW [] []).1 ⟨"AL", 2000, "Coal", 5, "Nonrenewable",
      10, 1, 2⟩ (List.mem_singleton.mpr rfl)
  have hno : ∀ p ∈ pp_table [] [], ¬(p.year = (2000 : Int) ∧ p.code = "AL") := by
    intro p hp
    exact absurd hp (List.not_mem_nil p)
  obtain ⟨hpop, hpol⟩ := hmiss hno
  exact ⟨r, hr, h1, h2, hpop, hpol⟩

/-- Claim C7: per-capita columns (wrangle.py lines 253-254): on every
final row with a present positive population, `co2_pp` and `mwh_pp` are
the exact quotients by the population; on every row with missing
population they are missing. -/
theorem per_capita_spec (eng : List EngRow) (popT : List PopRow)
    (polT : List PolRow) (r : FullRow) (hr : r ∈ build_full eng popT polT) :
    (∀ p : ℚ, r.pop = some p → 0 < p →
      r.co2_pp = some (r.co2_tons / p) ∧ r.mwh_pp = some (r.gen_mwh / p)) ∧
    (r.pop = none → r.co2_pp = none ∧ r.mwh_pp = none) := by
  obtain ⟨m, hm, hpc⟩ := build_full_toPcRow eng popT polT r hr
  have hpop : r.pop = m.pop := by
    rw [show r.pop = r.toPcRow.pop from rfl, hpc]
    rfl
  have hco2 : r.co2_tons = m.co2_tons := by
    rw [show r.co2_tons = r.toPcRow.co2_tons from rfl, hpc]
    rfl
  have hgen : r.gen_mwh = m.gen_mwh := by
    rw [show r.gen_mwh = r.toPcRow.gen_mwh from rfl, hpc]
    rfl
  have hcpp : r.co2_pp = m.pop.map (fun p => m.co2_tons / p) := by
    rw [show r.co2_pp = r.toPcRow.co2_pp from rfl, hpc]
    rfl
  have hmpp : r.mwh_pp = m.pop.map (fun p => m.gen_mwh / p) := by
    rw [show r.mwh_pp = r.toPcRow.mwh_pp from rfl, hpc]
    rfl
  constructor
  · intro p hp hpos
    rw [hpop] at hp
    constructor
    · rw [hcpp, hp, hco2]
      rfl
    · rw [hmpp, hp, hgen]
      rfl
  · intro hp
    rw [hpop] at hp
    constructor
    · rw [hcpp, hp]
      rfl
    · rw [hmpp, hp]
      rfl

/-- The right-join row produced by the witness tables. -/
def mW : MergeRow :=
  ⟨2000, "AL", some "Alabama", some 100, some "Republican", "Coal",
    "Nonrenewable", 5, 10, 1, 2⟩

theorem mW_mem : mW ∈ merged_table engW popW polW := by
  have h : merged_table engW popW polW = [mW] := rfl
  rw [h]
  exact List.mem_singleton.mpr rfl

/-- Witness for C7: on the witness tables the (2000, AL, Coal) row has
population 100 and the per-capita quotients by 100. -/
theorem per_capita_spec_witness :
    ∃ r ∈ build_full engW popW polW, r.pop = some 100 ∧
      r.co2_pp = some (r.co2_tons / 100) ∧
      r.mwh_pp = some (r.gen_mwh / 100) := by
  obtain ⟨r, hr, hpc⟩ := build_full_of_merged engW popW polW mW mW_mem
  have hpop : r.pop = some 100 := by
    rw [show r.pop = r.toPcRow.pop from rfl, hpc]
    rfl
  obtain ⟨hsome, -⟩ := per_capita_spec engW popW polW r hr
  obtain ⟨h1, h2⟩ := hsome 100 hpop (by norm_num)
  exact ⟨r, hr, hpop, h1, h2⟩

/-! ### Claims about the state codes kept in the tables -/

/-- Claim C6 (amended): `build_eng` excludes exactly the rows whose state
equals one of the four literals `"US-Total"`, `"US-TOTAL"`, the two-space
string `"  "`, or `"DC"` (wrangle.py lines 217-221), and retains every
other row of the left-joined energy table.  In particular a
whitespace-only state other than the exact two-space string is kept. -/
theorem build_eng_filter_spec (gen : List GenRow) (emis : List EmisRow)
    (r : EngRow) :
    r ∈ build_eng gen emis ↔
      (r ∈ eng_merge gen emis ∧ r.code ≠ "US-Total" ∧ r.code ≠ "US-TOTAL" ∧
        r.code ≠ "  " ∧ r.code ≠ "DC") := by
  rw [build_eng, List.mem_filter]
  constructor
  · rintro ⟨h1, h2⟩
    exact ⟨h1, of_decide_eq_true h2⟩
  · rintro ⟨h1, h2⟩
    exact ⟨h1, decide_eq_true h2⟩

/-- A cleaned generation table whose state is a single space (a
whitespace-only value that is not the literal two-space string). -/
def genSpace : List GenRow := [⟨" ", 2000, "Coal", 1, "Nonrenewable"⟩]

/-- Counterexample for C6 as stated: `build_eng` keeps a row whose state
is the whitespace-only single-space string, because the source only
filters the exact two-space literal. -/
theorem build_eng_filter_cex :
    ∃ r ∈ build_eng genSpace [], r.code = " " ∧ r.code ≠ "" ∧
      ∀ ch ∈ r.code.data, ch = ' ' := by
  decide

/-- Claim C1 (amended): every row of `build_full` takes its `code` from
some row of the energy table `build_eng`, hence it is never `"DC"`,
`"US-Total"`, `"US-TOTAL"` or the two-space blank; nothing in the
pipeline, however, constrains it to be a two-letter code present in the
code table. -/
theorem full_table_codes (gen : List GenRow) (emis : List EmisRow)
    (popT : List PopRow) (polT : List PolRow) (r : FullRow)
    (hr : r ∈ build_full (build_eng gen emis) popT polT) :
    (∃ e ∈ build_eng gen emis, r.code = e.code) ∧ r.code ≠ "DC" ∧
      r.code ≠ "US-Total" ∧ r.code ≠ "US-TOTAL" ∧ r.code ≠ "  " := by
  obtain ⟨m, hm, hpc⟩ := build_full_toPcRow _ popT polT r hr
  obtain ⟨e, he, h1, h2, _⟩ := rightJoinEng_mem _ _ m hm
  have hmr : r.toMergeRow = m := by
    rw [show r.toMergeRow = r.toPcRow.toMergeRow from rfl, hpc]
    rfl
  have hcode : r.code = e.code := by
    rw [show r.code = r.toMergeRow.code from rfl, hmr]
    exact h2
  have hfil := (List.mem_filter.mp he).2
  obtain ⟨hUSt, hUST, hblank, hDC⟩ := of_decide_eq_true hfil
  rw [hcode]
  exact ⟨⟨e, he, rfl⟩, hDC, hUSt, hUST, hblank⟩

/-- The codes CSV used by the C1 counterexample: only Alabama. -/
def codesCex : List CodeRow := [⟨"Alabama", "al"⟩]

/-- A cleaned generation table whose state `"ZZ"` is not in the codes
table. -/
def genCex : List GenRow := [⟨"ZZ", 1990, "Coal", 5, "Nonrenewable"⟩]

/-- Counterexample for C1 as stated: with a code table containing only
Alabama and an energy file mentioning state `"ZZ"`, the final table has a
row whose `code` is not present in the loaded code table (the right join
keeps every energy row, and no step checks codes against the code
table). -/
theorem full_table_codes_cex :
    ∃ r ∈ build_full (build_eng genCex []) [] [],
      ¬ r.code ∈ (load_codes codesCex).map (fun c => c.code) := by
  decide

/-- Witness for C1 (amended): a concrete final row whose code comes from
the energy table and is not DC. -/
theorem full_table_codes_witness :
    ∃ r ∈ build_full (build_eng genCex []) [] [],
      r.code ≠ "DC" ∧ r.code ≠ "US-Total" := by
  have he : (⟨"ZZ", 1990, "Coal", 5, "Nonrenewable", 0, 0, 0⟩ : EngRow) ∈
      build_eng genCex [] := by decide
  obtain ⟨m, hm, -⟩ :=
    rightJoinEng_cover (pp_table [] []) (build_eng genCex []) _ he
  obtain ⟨r, hr, -⟩ := build_full_of_merged (build_eng genCex []) [] [] m hm
  obtain ⟨-, hDC, hUSt, -, -⟩ := full_table_codes genCex [] [] [] r hr
  exact ⟨r, hr, hDC, hUSt⟩

/-! ### Claim about the filename dispatch of the energy cleaner -/

/-- Claim C10: `load_clean_eng` dispatches on the filename.  When the
filename contains neither "generation" nor "emission", no branch defines
the producer-type mask and the function fails (modelled as `none`) for
every file shape.  When the filename contains "generation", the
generation branch is taken — even if the filename also contains
"emission", since the `elif` is not reached. -/
theorem load_clean_eng_dispatch (fn : String) (file : RawEngFile) :
    (strContainsSub "generation" fn = false →
      strContainsSub "emission" fn = false →
      load_clean_eng fn file = none) ∧
    (strContainsSub "generation" fn = true →
      load_clean_eng fn file = gen_branch file) := by
  constructor
  · intro h1 h2
    simp [load_clean_eng, h1, h2]
  · intro h1
    simp [load_clean_eng, h1]

/-- Witness for C10: a population filename yields the error outcome for
both file shapes, and a filename containing both substrings takes the
generation branch. -/
theorem load_clean_eng_dispatch_witness :
    load_clean_eng "data/pop_90-99.csv" (RawEngFile.genFile []) = none ∧
    load_clean_eng "data/pop_90-99.csv" (RawEngFile.emisFile []) = none ∧
    load_clean_eng "generation_emission.csv" (RawEngFile.emisFile []) =
      gen_branch (RawEngFile.emisFile []) := by
  refine ⟨?_, ?_, ?_⟩
  · exact (load_clean_eng_dispatch _ _).1 (by decide) (by decide)
  · exact (load_clean_eng_dispatch _ _).1 (by decide) (by decide)
  · exact (load_clean_eng_dispatch _ _).2 (by decide)

/-! ### Group-sum lemmas for the share columns -/

/-- `sum_gen_mwh` of the `(y, c)` group of a per-capita table. -/
def group_gen_sum (d : List PcRow) (y : Int) (c : String) : ℚ :=
  ((d.filter (fun r => decide (r.year = y ∧ r.code = c))).map
    (fun r => r.gen_mwh)).sum

/-- `sum_mwh_pp` of the `(y, c)` group of a per-capita table (missing
`mwh_pp` values are skipped, as pandas `.sum()` does). -/
def group_pp_sum (d : List PcRow) (y : Int) (c : String) : ℚ :=
  ((d.filter (fun r => decide (r.year = y ∧ r.code = c))).filterMap
    (fun r => r.mwh_pp)).sum

theorem find?_pair_eq {l : List (Int × String)} {y : Int} {c : String}
    (h : (y, c) ∈ l) :
    l.find? (fun k => decide (k.1 = y ∧ k.2 = c)) = some (y, c) := by
  induction l with
  | nil => cases h
  | cons a as ih =>
    by_cases ha : a = (y, c)
    · subst ha
      exact List.find?_cons_of_pos as (by simp)
    · have hpred : ((fun k => decide (k.1 = y ∧ k.2 = c)) a) = false := by
        simp only [decide_eq_false_iff_not]
        rintro ⟨h1, h2⟩
        exact ha (Prod.ext h1 h2)
      rw [List.find?_cons_of_neg as (by
        simp only [decide_eq_true_eq]
        rintro ⟨h1, h2⟩
        exact ha (Prod.ext h1 h2))]
      rcases List.mem_cons.mp h with h | h
      · exact absurd h.symm ha
      · exact ih h

/-- The left join back onto the group-sum table resolves, for a key that
occurs in the data, to that key's sums. -/
theorem sum_mwh_table_find (d : List PcRow) (y : Int) (c : String)
    (h : (y, c) ∈ d.map (fun r => (r.year, r.code))) :
    (sum_mwh_table d).find?
        (fun s => decide (s.year = y ∧ s.code = c)) =
      some ⟨y, c, group_gen_sum d y c, group_pp_sum d y c⟩ := by
  unfold sum_mwh_table
  rw [List.find?_map]
  have hk : ((d.map (fun r => (r.year, r.code))).dedup).find?
      (fun k => decide (k.1 = y ∧ k.2 = c)) = some (y, c) :=
    find?_pair_eq (List.mem_dedup.mpr h)
  have : ((fun s : SumEntry => decide (s.year = y ∧ s.code = c)) ∘
      (fun k : Int × String =>
        (⟨k.1, k.2,
          ((d.filter (fun r => decide (r.year = k.1 ∧ r.code = k.2))).map
            (fun r => r.gen_mwh)).sum,
          ((d.filter (fun r => decide (r.year = k.1 ∧ r.code = k.2))).filterMap
            (fun r => r.mwh_pp)).sum⟩ : SumEntry))) =
      fun k : Int × String => decide (k.1 = y ∧ k.2 = c) := rfl
  rw [this, hk]
  rfl

/-- On a row of the `(y, c)` group, `add_sums_row` attaches that group's
sums and shares. -/
theorem add_sums_row_group (d : List PcRow) (r : PcRow) (y : Int)
    (c : String) (hy : r.year = y) (hc : r.code = c)
    (hmem : (y, c) ∈ d.map (fun w => (w.year, w.code))) :
    add_sums_row (sum_mwh_table d) r =
      { toPcRow := r, sum_gen_mwh := group_gen_sum d y c,
        sum_mwh_pp := group_pp_sum d y c,
        mwh_pp_pct := r.mwh_pp.map (fun v => v / group_pp_sum d y c),
        gen_mwh_pct := r.gen_mwh / group_gen_sum d y c } := by
  unfold add_sums_row
  rw [hy, hc, sum_mwh_table_find d y c hmem]

theorem sum_map_div (l : List ℚ) (S : ℚ) :
    (l.map (fun x => x / S)).sum = l.sum / S := by
  induction l with
  | nil => simp
  | cons a t ih => simp [ih, add_div]

theorem add_sums_row_year (sums : List SumEntry) (r : PcRow) :
    (add_sums_row sums r).year = r.year := by
  rw [show (add_sums_row sums r).year = (add_sums_row sums r).toPcRow.year
    from rfl, add_sums_row_toPcRow]

theorem add_sums_row_code (sums : List SumEntry) (r : PcRow) :
    (add_sums_row sums r).code = r.code := by
  rw [show (add_sums_row sums r).code = (add_sums_row sums r).toPcRow.code
    from rfl, add_sums_row_toPcRow]

/-- The `(y, c)` group of the final table is the image of the `(y, c)`
group of the per-capita table under the two left-join maps. -/
theorem build_full_filter_key (eng : List EngRow) (popT : List PopRow)
    (polT : List PolRow) (y : Int) (c : String) :
    (build_full eng popT polT).filter
        (fun r => decide (r.year = y ∧ r.code = c)) =
      ((pc_table eng popT polT).filter
        (fun w => decide (w.year = y ∧ w.code = c))).map
        (fun r3 => addRank (rank_table (shares_table eng popT polT))
          (add_sums_row (sum_mwh_table (pc_table eng popT polT)) r3)) := by
  have hbf : build_full eng popT polT =
      ((pc_table eng popT polT).map
        (add_sums_row (sum_mwh_table (pc_table eng popT polT)))).map
        (addRank (rank_table (shares_table eng popT polT))) := rfl
  rw [hbf, List.filter_map, List.filter_map, List.map_map]
  rw [List.filter_congr (fun r3 _ => ?_)]
  · rfl
  · apply decide_eq_decide.mpr
    rw [show (addRank (rank_table (shares_table eng popT polT))
        (add_sums_row (sum_mwh_table (pc_table eng popT polT)) r3)).year =
        (add_sums_row (sum_mwh_table (pc_table eng popT polT)) r3).year
        from rfl,
      show (addRank (rank_table (shares_table eng popT polT))
        (add_sums_row (sum_mwh_table (pc_table eng popT polT)) r3)).code =
        (add_sums_row (sum_mwh_table (pc_table eng popT polT)) r3).code
        from rfl,
      add_sums_row_year, add_sums_row_code]

/-- Claim C8: in the final table, for every `(year, code)` group that is
present and whose attached `sum_gen_mwh` is nonzero, the `gen_mwh_pct`
shares of the group sum to exactly 1 (wrangle.py lines 257-263).  The
nonzero hypothesis mirrors the claim's "neither zero nor missing"; with
the group sum zero the float code would produce `inf`/`NaN` shares. -/
theorem shares_sum_to_one (eng : List EngRow) (popT : List PopRow)
    (polT : List PolRow) (y : Int) (c : String)
    (hne : (build_full eng popT polT).filter
        (fun r => decide (r.year = y ∧ r.code = c)) ≠ [])
    (hS : ∀ r ∈ (build_full eng popT polT).filter
        (fun r => decide (r.year = y ∧ r.code = c)), r.sum_gen_mwh ≠ 0) :
    (((build_full eng popT polT).filter
        (fun r => decide (r.year = y ∧ r.code = c))).map
      (fun r => r.gen_mwh_pct)).sum = 1 := by
  have hmain := build_full_filter_key eng popT polT y c
  -- the per-capita group is nonempty
  have hpcne : (pc_table eng popT polT).filter
      (fun w => decide (w.year = y ∧ w.code = c)) ≠ [] := by
    intro h0
    rw [hmain, h0] at hne
    exact hne rfl
  obtain ⟨r0, hr0⟩ := List.exists_mem_of_ne_nil _ hpcne
  have hr0pc := (List.mem_filter.mp hr0).1
  obtain ⟨hy0, hc0⟩ := of_decide_eq_true (List.mem_filter.mp hr0).2
  have hkey : (y, c) ∈ (pc_table eng popT polT).map
      (fun w => (w.year, w.code)) :=
    List.mem_map.mpr ⟨r0, hr0pc, by simp [hy0, hc0]⟩
  -- the attached group sum is nonzero
  have hS0 : group_gen_sum (pc_table eng popT polT) y c ≠ 0 := by
    have hmem : addRank (rank_table (shares_table eng popT polT))
        (add_sums_row (sum_mwh_table (pc_table eng popT polT)) r0) ∈
        (build_full eng popT polT).filter
          (fun r => decide (r.year = y ∧ r.code = c)) := by
      rw [hmain]
      exact List.mem_map_of_mem _ hr0
    have := hS _ hmem
    rw [show (addRank (rank_table (shares_table eng popT polT))
        (add_sums_row (sum_mwh_table (pc_table eng popT polT)) r0)).sum_gen_mwh
        = (add_sums_row (sum_mwh_table (pc_table eng popT polT)) r0).sum_gen_mwh
        from rfl,
      add_sums_row_group (pc_table eng popT polT) r0 y c hy0 hc0 hkey] at this
    exact this
  -- compute the sum of the shares
  rw [hmain, List.map_map]
  have hmapc : ((pc_table eng popT polT).filter
      (fun w => decide (w.year = y ∧ w.code = c))).map
      ((fun r : FullRow => r.gen_mwh_pct) ∘
        (fun r3 => addRank (rank_table (shares_table eng popT polT))
          (add_sums_row (sum_mwh_table (pc_table eng popT polT)) r3))) =
      ((pc_table eng popT polT).filter
        (fun w => decide (w.year = y ∧ w.code = c))).map
      (fun r3 => r3.gen_mwh / group_gen_sum (pc_table eng popT polT) y c) := by
    apply List.map_congr_left
    intro r3 hr3
    obtain ⟨hy3, hc3⟩ := of_decide_eq_true (List.mem_filter.mp hr3).2
    show (addRank (rank_table (shares_table eng popT polT))
        (add_sums_row (sum_mwh_table (pc_table eng popT polT)) r3)).gen_mwh_pct
      = r3.gen_mwh / group_gen_sum (pc_table eng popT polT) y c
    rw [show (addRank (rank_table (shares_table eng popT polT))
        (add_sums_row (sum_mwh_table (pc_table eng popT polT)) r3)).gen_mwh_pct
        = (add_sums_row (sum_mwh_table (pc_table eng popT polT)) r3).gen_mwh_pct
        from rfl,
      add_sums_row_group (pc_table eng popT polT) r3 y c hy3 hc3 hkey]
  rw [hmapc]
  rw [show (fun r3 : PcRow =>
      r3.gen_mwh / group_gen_sum (pc_table eng popT polT) y c) =
      (fun x => x / group_gen_sum (pc_table eng popT polT) y c) ∘
        (fun r3 : PcRow => r3.gen_mwh) from rfl]
  rw [← List.map_map, sum_map_div]
  exact div_self hS0

/-- Witness for C8: on the witness tables the (2000, AL) group's
`gen_mwh_pct` values sum to 1. -/
theorem shares_sum_to_one_witness :
    (((build_full engW popW polW).filter
        (fun r => decide (r.year = 2000 ∧ r.code = "AL"))).map
      (fun r => r.gen_mwh_pct)).sum = 1 := by
  have hne : (build_full engW popW polW).filter
      (fun r => decide (r.year = 2000 ∧ r.code = "AL")) ≠ [] := by decide
  have hS : ∀ r ∈ (build_full engW popW polW).filter
      (fun r => decide (r.year = 2000 ∧ r.code = "AL")),
      r.sum_gen_mwh ≠ 0 := by
    intro r hr
    rw [build_full_filter_key engW popW polW 2000 "AL"] at hr
    obtain ⟨r3, hr3, rfl⟩ := List.mem_map.mp hr
    obtain ⟨hy3, hc3⟩ := of_decide_eq_true (List.mem_filter.mp hr3).2
    have hkey : ((2000 : Int), "AL") ∈ (pc_table engW popW polW).map
        (fun w => (w.year, w.code)) :=
      List.mem_map.mpr ⟨r3, (List.mem_filter.mp hr3).1, by simp [hy3, hc3]⟩
    rw [show (addRank (rank_table (shares_table engW popW polW))
        (add_sums_row (sum_mwh_table (pc_table engW popW polW)) r3)).sum_gen_mwh
        = (add_sums_row (sum_mwh_table (pc_table engW popW polW)) r3).sum_gen_mwh
        from rfl,
      add_sums_row_group (pc_table engW popW polW) r3 2000 "AL" hy3 hc3 hkey]
    have hval : group_gen_sum (pc_table engW popW polW) 2000 "AL" =
        5 + 0 := rfl
    rw [hval]
    norm_num
  exact shares_sum_to_one engW popW polW 2000 "AL" hne hS

/-! ### Claim about the population builder -/

theorem mergePopWide_mem (a b : List PopWide) (r : PopWide)
    (hr : r ∈ mergePopWide a b) :
    ∃ wa ∈ a, ∃ wb ∈ b, wb.state = wa.state ∧
      r = ⟨wa.state, suffixVals wa.vals wb.vals "_x" ++
        suffixVals wb.vals wa.vals "_y"⟩ := by
  obtain ⟨wa, hwa, hmem⟩ := List.mem_flatMap.mp hr
  obtain ⟨wb, hwb, hbeq⟩ := List.mem_map.mp hmem
  have h := List.mem_filter.mp hwb
  exact ⟨wa, hwa, wb, h.1, of_decide_eq_true h.2, hbeq.symm⟩

theorem mergePopWide_cover (a b : List PopWide) (wa wb : PopWide)
    (ha : wa ∈ a) (hb : wb ∈ b) (heq : wb.state = wa.state) :
    (⟨wa.state, suffixVals wa.vals wb.vals "_x" ++
      suffixVals wb.vals wa.vals "_y"⟩ : PopWide) ∈ mergePopWide a b := by
  apply List.mem_flatMap.mpr
  refine ⟨wa, ha, ?_⟩
  exact List.mem_map_of_mem _
    (List.mem_filter.mpr ⟨hb, decide_eq_true heq⟩)

/-- A column whose name does not occur on the other side of a merge keeps
its name through the suffixing. -/
theorem mem_suffixVals_of_fresh (vals other : List (String × ℚ))
    (suf : String) (v : String × ℚ) (hv : v ∈ vals)
    (hnc : ¬ v.1 ∈ other.map (fun w => w.1)) :
    v ∈ suffixVals vals other suf := by
  unfold suffixVals
  exact List.mem_map.mpr ⟨v, hv, if_neg hnc⟩

/-- The codes CSV of the C5 scenario. -/
def popCodesSc : List CodeRow := [⟨"CA", "ca"⟩]

/-- Scenario file 1: years 1990/1995, states CA and TX. -/
def popF1Sc : List PopWide :=
  [⟨"CA", [("1990", 10), ("1995", 11)]⟩, ⟨"TX", [("1990", 20), ("1995", 21)]⟩]

/-- Scenario file 2: years 2000/2005, states CA and NY. -/
def popF2Sc : List PopWide :=
  [⟨"CA", [("2000", 12), ("2005", 13)]⟩, ⟨"NY", [("2000", 22), ("2005", 23)]⟩]

/-- Scenario file 3: years 2010/2015, states CA and FL. -/
def popF3Sc : List PopWide :=
  [⟨"CA", [("2010", 14), ("2015", 15)]⟩, ⟨"FL", [("2010", 24), ("2015", 25)]⟩]

/-- The expected C5 scenario output: exactly the six CA rows. -/
def popScExpected : List PopMeltRow :=
  [⟨"CA", "CA", "1990", 10⟩, ⟨"CA", "CA", "1995", 11⟩,
   ⟨"CA", "CA", "2000", 12⟩, ⟨"CA", "CA", "2005", 13⟩,
   ⟨"CA", "CA", "2010", 14⟩, ⟨"CA", "CA", "2015", 15⟩]

/-- The codes CSV of the C5 counterexample: only CA. -/
def popCexCodes : List CodeRow := [⟨"CA", "ca"⟩]

/-- Counterexample file 1: CA with the single year column "2000". -/
def popCexF1 : List PopWide := [⟨"CA", [("2000", 1)]⟩]

/-- Counterexample file 2: CA with the same year column "2000". -/
def popCexF2 : List PopWide := [⟨"CA", [("2000", 2)]⟩]

/-- Counterexample file 3: CA with only a 5-character column. -/
def popCexF3 : List PopWide := [⟨"CA", [("abcde", 3)]⟩]

/-- Counterexample for C5 as stated: CA is in the code table and in all
three cleaned files, yet it does not appear in the output of `build_pop`.
The colliding "2000" column is suffixed to "2000_x"/"2000_y" by the merge
(6 characters) and the remaining column has 5 characters, so the
length-4 column drop removes every value column and the melt emits no
rows. -/
theorem build_pop_spec_cex :
    (∃ cr ∈ load_codes popCexCodes, cr.state = "CA") ∧
    (∃ w1 ∈ popCexF1, w1.state = "CA") ∧
    (∃ w2 ∈ popCexF2, w2.state = "CA") ∧
    (∃ w3 ∈ popCexF3, w3.state = "CA") ∧
    ¬ ∃ r ∈ build_pop popCexCodes popCexF1 popCexF2 popCexF3,
      r.state = "CA" := by
  decide

/-- Claim C5 (amended): `build_pop` inner-joins the three cleaned files
pairwise on `state` and then inner-joins the codes table, so (first
conjunct) a state name appears in the output exactly when it is a
code-table state name that is the punctuation-stripped version of a state
present in all three files — provided the first file's rows each keep at
least one year column of length at most 4 whose name occurs in neither of
the other two files, since a column name shared between files is
`_x`/`_y`-suffixed by the merges and then removed by the length-4 column
drop; and (second conjunct) on the scenario data, with only CA common to
the three files and disjoint year sets, the output is exactly the six CA
rows. -/
theorem build_pop_spec :
    (∀ (codes : List CodeRow) (f1 f2 f3 : List PopWide),
      (∀ w1 ∈ f1, ∀ w2 ∈ f2, ∀ w3 ∈ f3, ∃ v ∈ w1.vals, v.1.length ≤ 4 ∧
        ¬ v.1 ∈ w2.vals.map (fun w => w.1) ∧
        ¬ v.1 ∈ w3.vals.map (fun w => w.1)) → ∀ st : String,
      ((∃ r ∈ build_pop codes f1 f2 f3, r.state = st) ↔
        ((∃ cr ∈ load_codes codes, cr.state = st) ∧
         (∃ w1 ∈ f1, ∃ w2 ∈ f2, ∃ w3 ∈ f3,
           w2.state = w1.state ∧ w3.state = w1.state ∧
           pstrip w1.state = st)))) ∧
    build_pop popCodesSc popF1Sc popF2Sc popF3Sc = popScExpected := by
  constructor
  · intro codes f1 f2 f3 hcols st
    constructor
    · rintro ⟨r, hr, hst⟩
      simp only [build_pop] at hr
      obtain ⟨l, hl, hmem⟩ := List.mem_flatMap.mp hr
      obtain ⟨rr, hrr, hmem2⟩ := List.mem_flatMap.mp hmem
      obtain ⟨v, hv, hveq⟩ := List.mem_map.mp hmem2
      have hrst : r.state = l.state := by rw [← hveq]
      have hfil := List.mem_filter.mp hrr
      obtain ⟨rr0, hrr0, hrr0eq⟩ := List.mem_map.mp hfil.1
      have hrrst : rr.state = pstrip rr0.state := by rw [← hrr0eq]
      obtain ⟨a, ha, w3, hw3, heq3, haeq⟩ := mergePopWide_mem _ f3 rr0 hrr0
      obtain ⟨w1, hw1, w2, hw2, heq2, haeq2⟩ := mergePopWide_mem f1 f2 a ha
      have hast : a.state = w1.state := by rw [haeq2]
      have hr0st : rr0.state = w1.state := by rw [haeq, hast]
      refine ⟨⟨l, hl, by rw [← hrst, hst]⟩,
        ⟨w1, hw1, w2, hw2, w3, hw3, heq2, by rw [heq3, hast], ?_⟩⟩
      rw [← hr0st, ← hrrst, of_decide_eq_true hfil.2, ← hrst, hst]
    · rintro ⟨⟨cr, hcr, hcrst⟩, w1, hw1, w2, hw2, w3, hw3, h21, h31, hps⟩
      obtain ⟨v, hv, hvlen, hnc2, hnc3⟩ := hcols w1 hw1 w2 hw2 w3 hw3
      refine ⟨⟨cr.state, cr.code, v.1, v.2⟩, ?_, hcrst⟩
      simp only [build_pop]
      apply List.mem_flatMap.mpr
      refine ⟨cr, hcr, ?_⟩
      apply List.mem_flatMap.mpr
      refine ⟨⟨pstrip w1.state,
        suffixVals (suffixVals w1.vals w2.vals "_x" ++
            suffixVals w2.vals w1.vals "_y") w3.vals "_x" ++
          suffixVals w3.vals (suffixVals w1.vals w2.vals "_x" ++
            suffixVals w2.vals w1.vals "_y") "_y"⟩, ?_, ?_⟩
      · apply List.mem_filter.mpr
        constructor
        · have h12 : (⟨w1.state, suffixVals w1.vals w2.vals "_x" ++
              suffixVals w2.vals w1.vals "_y"⟩ : PopWide) ∈
              mergePopWide f1 f2 := mergePopWide_cover f1 f2 w1 w2 hw1 hw2 h21
          have h123 := mergePopWide_cover (mergePopWide f1 f2) f3
            ⟨w1.state, suffixVals w1.vals w2.vals "_x" ++
              suffixVals w2.vals w1.vals "_y"⟩ w3 h12 hw3 h31
          exact List.mem_map_of_mem
            (fun r => { r with state := pstrip r.state }) h123
        · exact decide_eq_true (by rw [hps, hcrst])
      · apply List.mem_map_of_mem
        apply List.mem_filter.mpr
        refine ⟨?_, decide_eq_true hvlen⟩
        apply List.mem_append_left
        apply mem_suffixVals_of_fresh _ w3.vals "_x" v _ hnc3
        exact List.mem_append_left _
          (mem_suffixVals_of_fresh w1.vals w2.vals "_x" v hv hnc2)
  · decide

/-- Witness for C5 (amended): on the scenario data, CA appears in the
output (via the first conjunct of the claim theorem, whose
disjoint-column hypothesis is discharged by computation). -/
theorem build_pop_spec_witness :
    ∃ r ∈ build_pop popCodesSc popF1Sc popF2Sc popF3Sc, r.state = "CA" :=
  (build_pop_spec.1 popCodesSc popF1Sc popF2Sc popF3Sc (by decide)
    "CA").mpr (by decide)

/-! ### Rank-table lemmas -/

/-- Dataset-wide `gen_mwh` sum of one source over the shares table. -/
def src_gen_sum4 (d : List SumRow) (s : String) : ℚ :=
  ((d.filter (fun r => decide (r.src = s))).map (fun r => r.gen_mwh)).sum

/-- Dataset-wide `co2_tons` sum of one source over the shares table. -/
def src_co2_sum4 (d : List SumRow) (s : String) : ℚ :=
  ((d.filter (fun r => decide (r.src = s))).map (fun r => r.co2_tons)).sum

theorem src_sums_eq (d : List SumRow) :
    src_sums d = ((d.map (fun r => r.src)).dedup).map (fun s =>
      ⟨s, src_gen_sum4 d s, src_co2_sum4 d s,
        src_co2_sum4 d s / src_gen_sum4 d s⟩) :=
  rfl

theorem src_sums_mem (d : List SumRow) (e : SrcEntry) (he : e ∈ src_sums d) :
    e.src ∈ (d.map (fun r => r.src)).dedup ∧
      e.co2_mwh = src_co2_sum4 d e.src / src_gen_sum4 d e.src := by
  rw [src_sums_eq] at he
  obtain ⟨s, hs, hse⟩ := List.mem_map.mp he
  rw [← hse]
  exact ⟨hs, rfl⟩

theorem src_sums_cover (d : List SumRow) (s : String)
    (hs : s ∈ (d.map (fun r => r.src)).dedup) :
    (⟨s, src_gen_sum4 d s, src_co2_sum4 d s,
      src_co2_sum4 d s / src_gen_sum4 d s⟩ : SrcEntry) ∈ src_sums d := by
  rw [src_sums_eq]
  exact List.mem_map_of_mem _ hs

theorem src_sums_map_src (d : List SumRow) :
    (src_sums d).map (fun e => e.src) = (d.map (fun r => r.src)).dedup := by
  rw [src_sums_eq, List.map_map]
  exact List.map_id' _

theorem rankFrom_map_src (i : Nat) (l : List SrcEntry) :
    (rankFrom i l).map (fun e => e.src) = l.map (fun e => e.src) := by
  induction l generalizing i with
  | nil => rfl
  | cons x xs ih => simp [rankFrom, ih]

theorem rankFrom_map_rank (i : Nat) (l : List SrcEntry) :
    (rankFrom i l).map (fun e => e.rank) = List.range' i l.length := by
  induction l generalizing i with
  | nil => rfl
  | cons x xs ih => simp [rankFrom, ih, List.range'_succ]

theorem rankFrom_rank_ge (i : Nat) (l : List SrcEntry) (e : RankEntry)
    (he : e ∈ rankFrom i l) : i ≤ e.rank := by
  induction l generalizing i with
  | nil => cases he
  | cons x xs ih =>
    rcases List.mem_cons.mp he with h | h
    · rw [h]
    · exact Nat.le_of_succ_le (ih (i + 1) h)

theorem rankFrom_rank_head (i : Nat) (l : List SrcEntry) (e : RankEntry)
    (he : e ∈ rankFrom i l) (hr : e.rank = i) :
    ∃ x xs, l = x :: xs ∧ e = ⟨x.src, i⟩ := by
  cases l with
  | nil => cases he
  | cons x xs =>
    rcases List.mem_cons.mp he with h | h
    · exact ⟨x, xs, rfl, h⟩
    · have := rankFrom_rank_ge (i + 1) xs e h
      omega

theorem insertionSort_head_max (l : List SrcEntry) (x : SrcEntry)
    (xs : List SrcEntry) (h : List.insertionSort srcGE l = x :: xs) :
    ∀ z ∈ l, z.co2_mwh ≤ x.co2_mwh := by
  intro z hz
  have hs := List.sorted_insertionSort srcGE l
  rw [h] at hs
  have hz' : z ∈ x :: xs := by
    rw [← h]
    exact (List.perm_insertionSort srcGE l).mem_iff.mpr hz
  rcases List.mem_cons.mp hz' with rfl | hzz
  · exact le_refl _
  · exact (List.sorted_cons.mp hs).1 z hzz

/-- The rank table enumerates the distinct sources: same source multiset
as the deduplicated `src` column. -/
theorem rank_table_map_src (d : List SumRow) :
    ((rank_table d).map (fun e => e.src)).Perm
      ((d.map (fun r => r.src)).dedup) := by
  rw [rank_table, rankFrom_map_src, ← src_sums_map_src]
  exact List.Perm.map _ (List.perm_insertionSort srcGE (src_sums d))

theorem rank_table_map_rank (d : List SumRow) :
    (rank_table d).map (fun e => e.rank) =
      List.range' 1 ((d.map (fun r => r.src)).dedup.length) := by
  rw [rank_table, rankFrom_map_rank,
    (List.perm_insertionSort srcGE (src_sums d)).length_eq, src_sums_eq,
    List.length_map]

theorem rank_table_src_nodup (d : List SumRow) :
    ((rank_table d).map (fun e => e.src)).Nodup :=
  (rank_table_map_src d).nodup_iff.mpr (List.nodup_dedup _)

theorem rank_table_rank_nodup (d : List SumRow) :
    ((rank_table d).map (fun e => e.rank)).Nodup := by
  rw [rank_table_map_rank]
  exact List.nodup_range' _ _

/-- The left join on `src` resolves, for a source present in the data, to
a unique rank-table entry for that source. -/
theorem rank_table_find (d : List SumRow) (s : String)
    (hs : s ∈ d.map (fun r => r.src)) :
    ∃ e ∈ rank_table d, e.src = s ∧
      (rank_table d).find? (fun e' => decide (e'.src = s)) = some e := by
  have hs2 : s ∈ (rank_table d).map (fun e => e.src) :=
    (rank_table_map_src d).mem_iff.mpr (List.mem_dedup.mpr hs)
  obtain ⟨e1, he1, he1s⟩ := List.mem_map.mp hs2
  have hsome : ((rank_table d).find?
      (fun e' => decide (e'.src = s))).isSome = true :=
    List.find?_isSome.mpr ⟨e1, he1, decide_eq_true he1s⟩
  obtain ⟨e0, he0⟩ := Option.isSome_iff_exists.mp hsome
  have hpe0 := List.find?_some he0
  exact ⟨e0, List.mem_of_find?_eq_some he0, of_decide_eq_true hpe0, he0⟩

theorem addRank_src (RT : List RankEntry) (r4 : SumRow) :
    (addRank RT r4).src = r4.src :=
  rfl

theorem addRank_rank_of_find (RT : List RankEntry) (r4 : SumRow)
    (e : RankEntry)
    (hf : RT.find? (fun w => decide (w.src = r4.src)) = some e) :
    (addRank RT r4).rank = some e.rank := by
  show (RT.find? (fun w => decide (w.src = r4.src))).map
    (fun w => w.rank) = some e.rank
  rw [hf]
  rfl

theorem build_full_map_src (eng : List EngRow) (popT : List PopRow)
    (polT : List PolRow) :
    (build_full eng popT polT).map (fun r => r.src) =
      (shares_table eng popT polT).map (fun r4 => r4.src) := by
  rw [show build_full eng popT polT = (shares_table eng popT polT).map
    (addRank (rank_table (shares_table eng popT polT))) from rfl,
    List.map_map]
  rfl

theorem build_full_src_totals (eng : List EngRow) (popT : List PopRow)
    (polT : List PolRow) (s : String) :
    src_gen_total (build_full eng popT polT) s =
      src_gen_sum4 (shares_table eng popT polT) s ∧
    src_co2_total (build_full eng popT polT) s =
      src_co2_sum4 (shares_table eng popT polT) s := by
  have hfil : (build_full eng popT polT).filter
      (fun r => decide (r.src = s)) =
      ((shares_table eng popT polT).filter
        (fun r4 => decide (r4.src = s))).map
        (addRank (rank_table (shares_table eng popT polT))) := by
    rw [show build_full eng popT polT = (shares_table eng popT polT).map
      (addRank (rank_table (shares_table eng popT polT))) from rfl,
      List.filter_map]
    rfl
  constructor
  · unfold src_gen_total src_gen_sum4
    rw [hfil, List.map_map]
    rfl
  · unfold src_co2_total src_co2_sum4
    rw [hfil, List.map_map]
    rfl

theorem src_per_mwh_bridge (eng : List EngRow) (popT : List PopRow)
    (polT : List PolRow) (s : String) :
    src_co2_per_mwh (build_full eng popT polT) s =
      src_co2_sum4 (shares_table eng popT polT) s /
        src_gen_sum4 (shares_table eng popT polT) s := by
  unfold src_co2_per_mwh
  rw [(build_full_src_totals eng popT polT s).1,
    (build_full_src_totals eng popT polT s).2]

/-- For a row of the shares table, the rank left join finds a unique
rank-table entry for the row's source. -/
theorem shares_row_rank (eng : List EngRow) (popT : List PopRow)
    (polT : List PolRow) (r4 : SumRow)
    (h4 : r4 ∈ shares_table eng popT polT) :
    ∃ e ∈ rank_table (shares_table eng popT polT), e.src = r4.src ∧
      (addRank (rank_table (shares_table eng popT polT)) r4).rank =
        some e.rank := by
  obtain ⟨e, he, hes, hf⟩ := rank_table_find (shares_table eng popT polT)
    r4.src (List.mem_map_of_mem _ h4)
  exact ⟨e, he, hes, addRank_rank_of_find _ r4 e hf⟩

theorem rank_table_rank_bounds (d : List SumRow) (e : RankEntry)
    (he : e ∈ rank_table d) :
    1 ≤ e.rank ∧ e.rank ≤ (d.map (fun r => r.src)).dedup.length := by
  have h1 : e.rank ∈ (rank_table d).map (fun w => w.rank) :=
    List.mem_map_of_mem _ he
  rw [rank_table_map_rank] at h1
  obtain ⟨i, hi, hk⟩ := List.mem_range'.mp h1
  omega

/-- Claim C4: the `rank` column (wrangle.py lines 267-274) is a dense
1..N permutation over the N distinct `src` values of the final table:
every row carries a rank in 1..N, rows agree on rank exactly when they
agree on source, every rank in 1..N occurs, and a rank-1 row's source has
the maximal dataset-wide `co2_tons / gen_mwh` quotient.  The hypothesis
that each source's dataset-wide generation sum is nonzero keeps the
rational division model aligned with the float code, which would produce
`inf`/`NaN` quotients on a zero denominator. -/
theorem rank_spec (eng : List EngRow) (popT : List PopRow)
    (polT : List PolRow)
    (_hgen : ∀ s ∈ (build_full eng popT polT).map (fun r => r.src),
      src_gen_total (build_full eng popT polT) s ≠ 0) :
    (∀ r ∈ build_full eng popT polT, ∃ k : Nat, r.rank = some k ∧ 1 ≤ k ∧
      k ≤ ((build_full eng popT polT).map (fun r => r.src)).dedup.length) ∧
    (∀ r ∈ build_full eng popT polT, ∀ w ∈ build_full eng popT polT,
      (r.src = w.src → r.rank = w.rank) ∧
      (r.src ≠ w.src → r.rank ≠ w.rank)) ∧
    (∀ k : Nat, 1 ≤ k →
      k ≤ ((build_full eng popT polT).map (fun r => r.src)).dedup.length →
      ∃ r ∈ build_full eng popT polT, r.rank = some k) ∧
    (∀ r ∈ build_full eng popT polT, r.rank = some 1 →
      ∀ w ∈ build_full eng popT polT,
        src_co2_per_mwh (build_full eng popT polT) w.src ≤
          src_co2_per_mwh (build_full eng popT polT) r.src) := by
  have htmap : build_full eng popT polT =
      (shares_table eng popT polT).map
        (addRank (rank_table (shares_table eng popT polT))) := rfl
  have hN : ((build_full eng popT polT).map (fun r => r.src)).dedup.length =
      ((shares_table eng popT polT).map
        (fun r4 => r4.src)).dedup.length := by
    rw [build_full_map_src]
  refine ⟨?_, ?_, ?_, ?_⟩
  · intro r hr
    rw [htmap] at hr
    obtain ⟨r4, h4, hreq⟩ := List.mem_map.mp hr
    obtain ⟨e, he, hes, hrk⟩ := shares_row_rank eng popT polT r4 h4
    obtain ⟨hb1, hb2⟩ :=
      rank_table_rank_bounds (shares_table eng popT polT) e he
    exact ⟨e.rank, by rw [← hreq]; exact hrk, hb1, by rw [hN]; exact hb2⟩
  · intro r hr w hw
    rw [htmap] at hr hw
    obtain ⟨r4, h4, hreq⟩ := List.mem_map.mp hr
    obtain ⟨w4, hw4, hweq⟩ := List.mem_map.mp hw
    constructor
    · intro hss
      have hss4 : r4.src = w4.src := by
        rw [← addRank_src (rank_table (shares_table eng popT polT)) r4,
          ← addRank_src (rank_table (shares_table eng popT polT)) w4,
          hreq, hweq]
        exact hss
      rw [← hreq, ← hweq,
        show (addRank (rank_table (shares_table eng popT polT)) r4).rank =
          ((rank_table (shares_table eng popT polT)).find?
            (fun v => decide (v.src = r4.src))).map (fun v => v.rank)
          from rfl,
        show (addRank (rank_table (shares_table eng popT polT)) w4).rank =
          ((rank_table (shares_table eng popT polT)).find?
            (fun v => decide (v.src = w4.src))).map (fun v => v.rank)
          from rfl,
        hss4]
    · intro hss hkk
      apply hss
      obtain ⟨e, he, hes, hrk⟩ := shares_row_rank eng popT polT r4 h4
      obtain ⟨f, hf, hfs, hwk⟩ := shares_row_rank eng popT polT w4 hw4
      rw [← hreq, ← hweq, hrk, hwk] at hkk
      have hef : e = f :=
        List.inj_on_of_nodup_map
          (rank_table_rank_nodup (shares_table eng popT polT)) he hf
          (Option.some.inj hkk)
      rw [← hreq, ← hweq, addRank_src, addRank_src, ← hes, ← hfs, hef]
  · intro k hk1 hk2
    rw [hN] at hk2
    have hkmem : k ∈ (rank_table (shares_table eng popT polT)).map
        (fun e => e.rank) := by
      rw [rank_table_map_rank, List.mem_range']
      exact ⟨k - 1, by omega, by omega⟩
    obtain ⟨e, he, hek⟩ := List.mem_map.mp hkmem
    have hesrc : e.src ∈ (shares_table eng popT polT).map
        (fun r4 => r4.src) := by
      have h1 : e.src ∈ (rank_table (shares_table eng popT polT)).map
          (fun v => v.src) := List.mem_map_of_mem _ he
      exact List.mem_dedup.mp
        ((rank_table_map_src (shares_table eng popT polT)).mem_iff.mp h1)
    obtain ⟨r4, h4, h4s⟩ := List.mem_map.mp hesrc
    obtain ⟨e0, he0, he0s, hrk⟩ := shares_row_rank eng popT polT r4 h4
    have he0e : e0 = e :=
      List.inj_on_of_nodup_map
        (rank_table_src_nodup (shares_table eng popT polT)) he0 he
        (by rw [he0s, h4s])
    refine ⟨addRank (rank_table (shares_table eng popT polT)) r4, ?_, ?_⟩
    · rw [htmap]
      exact List.mem_map_of_mem _ h4
    · rw [hrk, he0e, hek]
  · intro r hr hr1 w hw
    rw [htmap] at hr hw
    obtain ⟨r4, h4, hreq⟩ := List.mem_map.mp hr
    obtain ⟨w4, hw4, hweq⟩ := List.mem_map.mp hw
    obtain ⟨e, he, hes, hrk⟩ := shares_row_rank eng popT polT r4 h4
    rw [← hreq] at hr1
    rw [hrk] at hr1
    have he1 : e.rank = 1 := Option.some.inj hr1
    rw [rank_table] at he
    obtain ⟨x, xs, hxeq, hex⟩ := rankFrom_rank_head 1 _ e he he1
    have hxsrc : e.src = x.src := by rw [hex]
    have hxmem : x ∈ src_sums (shares_table eng popT polT) := by
      have : x ∈ List.insertionSort srcGE
          (src_sums (shares_table eng popT polT)) := by
        rw [hxeq]
        exact List.mem_cons_self x xs
      exact (List.perm_insertionSort srcGE _).mem_iff.mp this
    have hxratio := src_sums_mem (shares_table eng popT polT) x hxmem
    have hwsrc : w4.src ∈ ((shares_table eng popT polT).map
        (fun r4 => r4.src)).dedup :=
      List.mem_dedup.mpr (List.mem_map_of_mem _ hw4)
    have hwmem := src_sums_cover (shares_table eng popT polT) w4.src hwsrc
    have hle := insertionSort_head_max
      (src_sums (shares_table eng popT polT)) x xs hxeq _ hwmem
    rw [← hweq, ← hreq, addRank_src, addRank_src,
      src_per_mwh_bridge eng popT polT, src_per_mwh_bridge eng popT polT]
    have hr4x : r4.src = x.src := by rw [← hes, hxsrc]
    rw [hr4x, ← hxratio.2]
    exact hle

/-- Witness for C4: on the witness tables (a single source), rank 1 is
assigned and appears on a row. -/
theorem rank_spec_witness :
    ∃ r ∈ build_full engW popW polW, r.rank = some 1 := by
  have hgen : ∀ s ∈ (build_full engW popW polW).map (fun r => r.src),
      src_gen_total (build_full engW popW polW) s ≠ 0 := by
    intro s hs
    have hmap : (build_full engW popW polW).map (fun r => r.src) =
        ["Coal"] := rfl
    rw [hmap] at hs
    rw [List.mem_singleton.mp hs]
    have hval : src_gen_total (build_full engW popW polW) "Coal" =
        5 + 0 := rfl
    rw [hval]
    norm_num
  have hN : ((build_full engW popW polW).map
      (fun r => r.src)).dedup.length = 1 := rfl
  exact (rank_spec engW popW polW hgen).2.2.1 1 (le_refl 1) (by rw [hN])
